import Mathlib

/-!
Verification of the Bitbucket environment-variable manager
(`manage_bitbucket_env.py`): environment resolution, paginated variable
retrieval, the three export projections, and the import/reconcile engine.

The Python functions are shallowly embedded: network requests become values
of an explicit `Request` type, file writes become the `Option`-valued content
that would be written (`none` = the function returned without writing), and
dictionary lookups on optional JSON fields become `Option` fields.
-/

namespace BitbucketEnvMgr

/-- A variable entry as returned by the remote store: `{key, value, secured, uuid}`.
The `uuid` is the remote-assigned handle of the stored entry. -/
structure RemoteVar where
  key : String
  value : String
  secured : Bool
  uuid : String
  deriving Repr, DecidableEq

/-- A local variable entry as parsed from an import JSON file:
`{key, value, secured?}`.  The `secured` field may be absent (`none`),
mirroring `var.get("secured", False)` in the source. -/
structure LocalVar where
  key : String
  value : String
  secured : Option Bool
  deriving Repr, DecidableEq

/-- The `environment` object embedded in write payloads:
`{"type": ..., "uuid": ...}`. -/
structure EnvRef where
  type : String
  uuid : String
  deriving Repr, DecidableEq

/-- The JSON body of a create/update request:
`{key, value, secured, environment}` (manage_bitbucket_env.py lines 304-312
and 320-328). -/
structure Payload where
  key : String
  value : String
  secured : Bool
  environment : EnvRef
  deriving Repr, DecidableEq

/-- An HTTP request issued against the variable store.  `put` carries the
uuid of the addressed entry, `post` targets the collection, `get` a url.
`delete` is part of the request space of the remote API; the claims ask whether
the program ever issues one. -/
inductive Request where
  | get (url : String)
  | put (uuid : String) (payload : Payload)
  | post (payload : Payload)
  | delete (uuid : String)
  deriving Repr, DecidableEq

/-- Whether a request is a delete. -/
def Request.isDelete : Request → Bool
  | .delete _ => true
  | _ => false

/-- Whether a request is an update (PUT). -/
def Request.isPut : Request → Bool
  | .put _ _ => true
  | _ => false

/-- Whether a request is a create (POST). -/
def Request.isPost : Request → Bool
  | .post _ => true
  | _ => false

/-- A deployment environment entry `{name, uuid}` from the environments
listing. -/
structure Environment where
  name : String
  uuid : String
  deriving Repr, DecidableEq

/-- Error kinds surfaced by the engine.  `notFound` embeds the
`ValueError` (deployment environment not found) raised by
`get_environment_uuid` (line 126), which the design document names
`NotFoundError`.  `keyError` embeds a Python `KeyError` on a missing
dictionary field. -/
inductive MgrError where
  | notFound (deployment_name : String)
  | keyError (field : String)
  deriving Repr, DecidableEq

/-- Embedding of `get_environment_uuid` (lines 106-126): scan the fetched environments in
order for the first whose `name` equals `deployment_name` and return its
`uuid`; raise the not-found error when no entry matches. -/
def get_environment_uuid (environments : List Environment)
    (deployment_name : String) : Except MgrError String :=
  match environments.find? (fun env => env.name == deployment_name) with
  | some env => .ok env.uuid
  | none => .error (.notFound deployment_name)

/-- One page of the paginated variables listing: the `values` list of the decoded response body (absent ↦ `[]`) and optional `next` link. -/
structure Page where
  values : List RemoteVar
  next : Option String
  deriving Repr, DecidableEq

/-- The `while url:` loop of `get_variables` (lines 144-160), with the remote
modelled as the sequence of pages it serves: each GET consumes the head page;
an empty `values` list returns the accumulator immediately; otherwise the
entries are appended and the loop continues iff the page carries a `next`
link.  Returns the accumulated variables and the number of GET requests
made. -/
def get_variables_loop (acc : List RemoteVar) (gets : Nat) :
    List Page → List RemoteVar × Nat
  | [] => (acc, gets)
  | page :: rest =>
    if page.values.isEmpty then
      (acc, gets + 1)
    else
      match page.next with
      | some _ => get_variables_loop (acc ++ page.values) (gets + 1) rest
      | none => (acc ++ page.values, gets + 1)

/-- Embedding of `get_variables` (lines 129-162): fetch all pages starting from the
first-page url (the initial url is non-empty, so the first page is always
requested when the remote serves one). -/
def get_variables (pages : List Page) : List RemoteVar × Nat :=
  get_variables_loop [] 0 pages

/-- An entry of an export output file: `{key, value, secured}`. -/
structure ExportEntry where
  key : String
  value : String
  secured : Bool
  deriving Repr, DecidableEq

/-- The projection loop of `export_variables` (lines 180-192): keep each
fetched entry whose `secured` flag is false, emitting
`{key, value, secured}` with the value unmodified; secured entries are only
logged. -/
def export_vars_loop : List RemoteVar → List ExportEntry
  | [] => []
  | var :: rest =>
    if !var.secured then
      ⟨var.key, var.value, var.secured⟩ :: export_vars_loop rest
    else
      export_vars_loop rest

/-- Embedding of `export_variables` (lines 165-204) after the fetch: the content written
to the output file, or `none` when the fetched list is empty and the
function returns without writing (lines 177-178). -/
def export_variables (fetched : List RemoteVar) : Option (List ExportEntry) :=
  if fetched.isEmpty then none
  else some (export_vars_loop fetched)

/-- The projection loop of `export_all_variables` (lines 222-234): keep every
entry; a secured entry is emitted with its value replaced by `""`, any other
with its real value. -/
def export_all_vars_loop : List RemoteVar → List ExportEntry
  | [] => []
  | var :: rest =>
    if var.secured then
      ⟨var.key, "", var.secured⟩ :: export_all_vars_loop rest
    else
      ⟨var.key, var.value, var.secured⟩ :: export_all_vars_loop rest

/-- Embedding of `export_all_variables` (lines 207-242) after the fetch: the content
written to the output file, or `none` when the fetched list is empty
(lines 219-220). -/
def export_all_variables (fetched : List RemoteVar) : Option (List ExportEntry) :=
  if fetched.isEmpty then none
  else some (export_all_vars_loop fetched)

/-- Embedding of `export_secret_keys` (lines 245-286) after the fetch: the list
`[var["key"] for var in variables if var["secured"]]` written to the output
file (line 274), or `none` when the fetched list is empty (lines 272-273).
The output is a bare list of keys: no value field exists in it. -/
def export_secret_keys (fetched : List RemoteVar) : Option (List String) :=
  if fetched.isEmpty then none
  else some ((fetched.filter (fun var => var.secured)).map (fun var => var.key))

/-- Embedding of `update_vars` (lines 289-331): find the first existing remote entry whose
`key` equals the `key` of the candidate.  On a match, issue one PUT addressed by
the `uuid` of the matched entry; otherwise one POST to the collection.  Both carry
the payload `{key, value, secured, environment: {type: "deployment_environment",
uuid: environment_uuid}}`.  Accessing an absent `secured` field of the candidate
(`var["secured"]`, lines 307/323) raises a `KeyError` before any request is
issued. -/
def update_vars (environment_uuid : String) (existing_vars : List RemoteVar)
    (var : LocalVar) : Except MgrError (List Request) :=
  match existing_vars.find? (fun v => v.key == var.key) with
  | some existing_var =>
    match var.secured with
    | none => .error (.keyError "secured")
    | some sec =>
      .ok [Request.put existing_var.uuid
        ⟨var.key, var.value, sec, ⟨"deployment_environment", environment_uuid⟩⟩]
  | none =>
    match var.secured with
    | none => .error (.keyError "secured")
    | some sec =>
      .ok [Request.post
        ⟨var.key, var.value, sec, ⟨"deployment_environment", environment_uuid⟩⟩]

/-- The entries `import_variables` passes to `update_vars`, in file order
(lines 350-374): with `update_all` every entry is passed; without it an entry
whose `secured` field is truthy (`var.get("secured", False)`, line 363, with
an absent field defaulting to not-secured) is skipped. -/
def reconciler_calls : List LocalVar → Bool → List LocalVar
  | [], _ => []
  | var :: rest, true => var :: reconciler_calls rest true
  | var :: rest, false =>
    if var.secured.getD false then reconciler_calls rest false
    else var :: reconciler_calls rest false

/-- The import loop body: run `update_vars` on each entry in order against
the fixed `existing_vars` snapshot, accumulating the issued requests; a
raised error aborts the run immediately (requests already issued stay
issued). -/
def run_reconciler (environment_uuid : String) (existing_vars : List RemoteVar) :
    List LocalVar → List Request × Option MgrError
  | [] => ([], none)
  | var :: rest =>
    match update_vars environment_uuid existing_vars var with
    | .error e => ([], some e)
    | .ok reqs =>
      let (more, err) := run_reconciler environment_uuid existing_vars rest
      (reqs ++ more, err)

/-- Embedding of `import_variables` (lines 334-375) after the fetch: the sequence of write
requests issued for the given local entries, reconciled against the remote
snapshot `existing_vars` fetched once before the loop (line 346), together
with the error that aborted the run, if any. -/
def import_variables (environment_uuid : String) (existing_vars : List RemoteVar)
    (import_vars : List LocalVar) (update_all : Bool) :
    List Request × Option MgrError :=
  run_reconciler environment_uuid existing_vars (reconciler_calls import_vars update_all)

/-! Helper lemmas -/

/-- The non-secret projection loop keeps exactly the non-secured entries, in
order, emitting each with its key, unmodified value and (false) secured
flag. -/
theorem export_vars_loop_eq (vs : List RemoteVar) :
    export_vars_loop vs =
      (vs.filter (fun v => !v.secured)).map
        (fun v => ExportEntry.mk v.key v.value false) := by
  induction vs with
  | nil => rfl
  | cons v rest ih =>
    cases hs : v.secured <;>
      simp [export_vars_loop, List.filter_cons, hs, ih]

/-- The all-variables projection loop maps each entry to a redacted copy when
secured and to an unmodified copy otherwise. -/
theorem export_all_vars_loop_eq (vs : List RemoteVar) :
    export_all_vars_loop vs =
      vs.map (fun v =>
        if v.secured then ExportEntry.mk v.key "" true
        else ExportEntry.mk v.key v.value false) := by
  induction vs with
  | nil => rfl
  | cons v rest ih =>
    cases hs : v.secured <;>
      simp [export_all_vars_loop, hs, ih]

/-! Claim theorems -/

/-- Claim C4: for every non-empty fetched variable list, the non-secret
export writes exactly the entries with `secured == false`, as
`{key, value, secured: false}` with values unmodified and in input order,
and writes no entry with `secured == true`. -/
theorem export_variables_spec (fetched : List RemoteVar) (h : fetched ≠ []) :
    export_variables fetched =
      some ((fetched.filter (fun v => !v.secured)).map
        (fun v => ExportEntry.mk v.key v.value false)) ∧
    ∀ out, export_variables fetched = some out →
      (∀ e ∈ out, e.secured = false) ∧
      (∀ v ∈ fetched, v.secured = false →
        ExportEntry.mk v.key v.value false ∈ out) := by
  have hne : fetched.isEmpty = false := by simpa [List.isEmpty_iff] using h
  refine ⟨by simp [export_variables, hne, export_vars_loop_eq], ?_⟩
  intro out hout
  simp only [export_variables, hne, Bool.false_eq_true, if_false,
    Option.some.injEq] at hout
  subst hout
  rw [export_vars_loop_eq]
  constructor
  · intro e he
    simp only [List.mem_map, List.mem_filter] at he
    obtain ⟨v, _, rfl⟩ := he
    rfl
  · intro v hv hs
    exact List.mem_map_of_mem _ (List.mem_filter.mpr ⟨hv, by simp [hs]⟩)

/-- Witness for C4 at a concrete two-entry list with one secured entry. -/
theorem export_variables_spec_witness :
    export_variables [RemoteVar.mk "a" "1" false "ua", ⟨"b", "2", true, "ub"⟩] =
      some (([RemoteVar.mk "a" "1" false "ua", ⟨"b", "2", true, "ub"⟩].filter
          (fun v => !v.secured)).map
        (fun v => ExportEntry.mk v.key v.value false)) :=
  (export_variables_spec _ (by decide)).1

/-- Claim C5: for every non-empty fetched variable list, the all-variables
export writes one output entry per input entry, redacting the value of every
secured entry to the empty string and preserving every non-secured value. -/
theorem export_all_variables_spec (fetched : List RemoteVar) (h : fetched ≠ []) :
    export_all_variables fetched =
      some (fetched.map (fun v =>
        if v.secured then ExportEntry.mk v.key "" true
        else ExportEntry.mk v.key v.value false)) ∧
    ∀ out, export_all_variables fetched = some out →
      out.length = fetched.length ∧
      (∀ e ∈ out, e.secured = true → e.value = "") := by
  have hne : fetched.isEmpty = false := by simpa [List.isEmpty_iff] using h
  refine ⟨by simp [export_all_variables, hne, export_all_vars_loop_eq], ?_⟩
  intro out hout
  simp only [export_all_variables, hne, Bool.false_eq_true, if_false,
    Option.some.injEq] at hout
  subst hout
  rw [export_all_vars_loop_eq]
  refine ⟨by simp, ?_⟩
  intro e he
  simp only [List.mem_map] at he
  obtain ⟨v, _, rfl⟩ := he
  cases hs : v.secured <;> simp [hs]

/-- Witness for C5 at a concrete two-entry list with one secured entry. -/
theorem export_all_variables_spec_witness :
    export_all_variables [RemoteVar.mk "a" "1" false "ua", ⟨"b", "2", true, "ub"⟩] =
      some ([RemoteVar.mk "a" "1" false "ua", ⟨"b", "2", true, "ub"⟩].map (fun v =>
        if v.secured then ExportEntry.mk v.key "" true
        else ExportEntry.mk v.key v.value false)) :=
  (export_all_variables_spec _ (by decide)).1

/-- Claim C6: for every non-empty fetched variable list, the secret-keys
export writes exactly the keys of the entries with `secured == true`, in
input order; the output is a bare list of keys, so it carries no value
field. -/
theorem export_secret_keys_spec (fetched : List RemoteVar) (h : fetched ≠ []) :
    ∃ out, export_secret_keys fetched = some out ∧
      out = (fetched.filter (fun v => v.secured)).map RemoteVar.key ∧
      out.length = fetched.countP (fun v => v.secured) ∧
      (∀ k ∈ out, ∃ v ∈ fetched, v.secured = true ∧ v.key = k) ∧
      (∀ v ∈ fetched, v.secured = true → v.key ∈ out) := by
  have hne : fetched.isEmpty = false := by simpa [List.isEmpty_iff] using h
  refine ⟨(fetched.filter (fun v => v.secured)).map RemoteVar.key,
    by simp [export_secret_keys, hne], rfl, ?_, ?_, ?_⟩
  · rw [List.countP_eq_length_filter, List.length_map]
  · intro k hk
    simp only [List.mem_map, List.mem_filter] at hk
    obtain ⟨v, ⟨hv, hs⟩, rfl⟩ := hk
    exact ⟨v, hv, hs, rfl⟩
  · intro v hv hs
    exact List.mem_map_of_mem _ (List.mem_filter.mpr ⟨hv, hs⟩)

/-- Witness for C6 at a concrete two-entry list with one secured entry. -/
theorem export_secret_keys_spec_witness :
    ∃ out,
      export_secret_keys [RemoteVar.mk "a" "1" false "ua", ⟨"b", "2", true, "ub"⟩] =
        some out ∧
      out = ([RemoteVar.mk "a" "1" false "ua", ⟨"b", "2", true, "ub"⟩].filter
        (fun v => v.secured)).map RemoteVar.key ∧
      out.length =
        [RemoteVar.mk "a" "1" false "ua", ⟨"b", "2", true, "ub"⟩].countP
          (fun v => v.secured) ∧
      (∀ k ∈ out, ∃ v ∈ [RemoteVar.mk "a" "1" false "ua", ⟨"b", "2", true, "ub"⟩],
        v.secured = true ∧ v.key = k) ∧
      (∀ v ∈ [RemoteVar.mk "a" "1" false "ua", ⟨"b", "2", true, "ub"⟩],
        v.secured = true → v.key ∈ out) :=
  export_secret_keys_spec _ (by decide)

/-- Claim C7: the resolver returns the uuid of the first environment whose
name equals the deployment name, and fails with the not-found error exactly
when no name matches; concretely, resolving staging against
prod/staging returns s1, and against prod alone fails. -/
theorem get_environment_uuid_spec (envs : List Environment) (dep : String) :
    (∀ m, envs.find? (fun e => e.name == dep) = some m →
      get_environment_uuid envs dep = .ok m.uuid) ∧
    (get_environment_uuid envs dep = .error (.notFound dep) ↔
      ∀ e ∈ envs, e.name ≠ dep) ∧
    get_environment_uuid [⟨"prod", "p1"⟩, ⟨"staging", "s1"⟩] "staging" =
      .ok "s1" ∧
    get_environment_uuid [⟨"prod", "p1"⟩] "staging" =
      .error (.notFound "staging") := by
  refine ⟨?_, ⟨?_, ?_⟩, by rfl, by rfl⟩
  · intro m hm
    simp [get_environment_uuid, hm]
  · intro happ e he
    rcases hf : envs.find? (fun x => x.name == dep) with _ | m
    · have := List.find?_eq_none.mp hf e he
      simpa using this
    · simp [get_environment_uuid, hf] at happ
  · intro hnone
    have hf : envs.find? (fun x => x.name == dep) = none :=
      List.find?_eq_none.mpr (fun x hx => by simp [hnone x hx])
    simp [get_environment_uuid, hf]

/-- Witness for C7: the first-match case at a concrete environment list. -/
theorem get_environment_uuid_spec_witness :
    get_environment_uuid [⟨"prod", "p1"⟩, ⟨"staging", "s1"⟩] "staging" =
      .ok (Environment.mk "staging" "s1").uuid :=
  (get_environment_uuid_spec [⟨"prod", "p1"⟩, ⟨"staging", "s1"⟩] "staging").1
    ⟨"staging", "s1"⟩ (by decide)

/-- Claim C8: when the fetch returned an empty variable list, each of the
three export operations returns without writing anything (the written
content is `none`), a successful no-op rather than an error. -/
theorem export_empty_fetch_noop (fetched : List RemoteVar) (h : fetched = []) :
    export_variables fetched = none ∧ export_all_variables fetched = none ∧
      export_secret_keys fetched = none := by
  subst h
  exact ⟨rfl, rfl, rfl⟩

/-- Witness for C8 at the empty list. -/
theorem export_empty_fetch_noop_witness :
    export_variables [] = none ∧ export_all_variables [] = none ∧
      export_secret_keys [] = none :=
  export_empty_fetch_noop [] rfl

/-- Claim C1: reconciling a candidate against the existing remote variables
issues exactly one PUT, addressed by the uuid of the first entry whose key
matches, with the create/update payload, when some entry has the candidate
key; and exactly one POST with the same payload shape, and no PUT, when no
entry has the candidate key. -/
theorem update_vars_spec (env ky value : String) (sec : Bool)
    (existing : List RemoteVar) :
    ((∃ v ∈ existing, v.key = ky) →
      ∃ m, existing.find? (fun v => v.key == ky) = some m ∧ m.key = ky ∧
        update_vars env existing ⟨ky, value, some sec⟩ =
          .ok [Request.put m.uuid
            ⟨ky, value, sec, ⟨"deployment_environment", env⟩⟩]) ∧
    ((∀ v ∈ existing, v.key ≠ ky) →
      update_vars env existing ⟨ky, value, some sec⟩ =
        .ok [Request.post
          ⟨ky, value, sec, ⟨"deployment_environment", env⟩⟩]) := by
  constructor
  · rintro ⟨w, hw, hwk⟩
    have hsome : (existing.find? (fun v => v.key == ky)).isSome := by
      rw [List.find?_isSome]
      exact ⟨w, hw, by simp [hwk]⟩
    obtain ⟨m, hm⟩ := Option.isSome_iff_exists.mp hsome
    refine ⟨m, hm, by simpa using List.find?_some hm, ?_⟩
    simp [update_vars, hm]
  · intro hnone
    have hf : existing.find? (fun v => v.key == ky) = none :=
      List.find?_eq_none.mpr (fun x hx => by simp [hnone x hx])
    simp [update_vars, hf]

/-- Witness for C1: both branches at a concrete one-entry snapshot. -/
theorem update_vars_spec_witness :
    (∃ m, List.find? (fun v => v.key == "K")
          [RemoteVar.mk "K" "old" false "U"] = some m ∧ m.key = "K" ∧
        update_vars "E" [RemoteVar.mk "K" "old" false "U"]
            ⟨"K", "new", some true⟩ =
          .ok [Request.put m.uuid
            ⟨"K", "new", true, ⟨"deployment_environment", "E"⟩⟩]) ∧
    update_vars "E" [RemoteVar.mk "K" "old" false "U"] ⟨"J", "new", some false⟩ =
      .ok [Request.post ⟨"J", "new", false, ⟨"deployment_environment", "E"⟩⟩] :=
  ⟨(update_vars_spec "E" "K" "new" true _).1
      ⟨⟨"K", "old", false, "U"⟩, by decide, rfl⟩,
   (update_vars_spec "E" "J" "new" false _).2 (by decide)⟩

/-- Claim C3: in a plain import (no `update_all`), the entries passed to the
reconciler are exactly the local entries whose `secured` flag is not truthy,
in file order; an entry with a truthy `secured` flag is never passed, and an
entry with an absent `secured` field counts as not secured and is passed. -/
theorem import_plain_skips_secured (import_vars : List LocalVar) :
    reconciler_calls import_vars false =
      import_vars.filter (fun v => !(v.secured.getD false)) ∧
    (∀ v ∈ import_vars, v.secured.getD false = true →
      v ∉ reconciler_calls import_vars false) ∧
    (∀ v ∈ import_vars, v.secured = none →
      v ∈ reconciler_calls import_vars false) := by
  have heq : reconciler_calls import_vars false =
      import_vars.filter (fun v => !(v.secured.getD false)) := by
    induction import_vars with
    | nil => rfl
    | cons v rest ih =>
      cases hs : v.secured.getD false <;>
        simp [reconciler_calls, List.filter_cons, hs, ih]
  refine ⟨heq, ?_, ?_⟩
  · intro v _ hs
    rw [heq]
    intro hmem
    have := (List.mem_filter.mp hmem).2
    simp [hs] at this
  · intro v hv hs
    rw [heq]
    exact List.mem_filter.mpr ⟨hv, by simp [hs]⟩

/-- Witness for C3: a secured entry is skipped and an entry with an absent
`secured` field is passed, in a concrete two-entry file. -/
theorem import_plain_skips_secured_witness :
    LocalVar.mk "S" "1" (some true) ∉
      reconciler_calls [LocalVar.mk "S" "1" (some true), ⟨"P", "2", none⟩] false ∧
    LocalVar.mk "P" "2" none ∈
      reconciler_calls [LocalVar.mk "S" "1" (some true), ⟨"P", "2", none⟩] false :=
  ⟨(import_plain_skips_secured _).2.1 _ (by decide) (by decide),
   (import_plain_skips_secured _).2.2 _ (by decide) (by decide)⟩

/-- Every successful run of the reconciler issues a single request, and that
request is a PUT or a POST. -/
theorem update_vars_ok_shape (env : String) (existing : List RemoteVar)
    (var : LocalVar) (reqs : List Request)
    (h : update_vars env existing var = .ok reqs) :
    ∀ r ∈ reqs, r.isDelete = false ∧ (r.isPut = true ∨ r.isPost = true) := by
  intro r hr
  unfold update_vars at h
  rcases hf : existing.find? (fun v => v.key == var.key) with _ | m <;>
    rcases hs : var.secured with _ | sec
  · simp [hf, hs] at h
  · simp [hf, hs] at h
    subst h
    rcases List.mem_singleton.mp hr with rfl
    exact ⟨rfl, Or.inr rfl⟩
  · simp [hf, hs] at h
  · simp [hf, hs] at h
    subst h
    rcases List.mem_singleton.mp hr with rfl
    exact ⟨rfl, Or.inl rfl⟩

/-- Every request in the trace of the import loop was issued by a successful
run of the reconciler against the same snapshot. -/
theorem run_reconciler_mem_requests (env : String) (existing : List RemoteVar)
    (vs : List LocalVar) (r : Request)
    (hr : r ∈ (run_reconciler env existing vs).1) :
    ∃ v reqs, update_vars env existing v = .ok reqs ∧ r ∈ reqs := by
  induction vs with
  | nil => simp [run_reconciler] at hr
  | cons v rest ih =>
    rw [run_reconciler] at hr
    rcases hu : update_vars env existing v with e | reqs <;> rw [hu] at hr
    · simp at hr
    · rcases hp : run_reconciler env existing rest with ⟨more, err⟩
      rw [hp] at hr ih
      rcases List.mem_append.mp (by simpa using hr) with h1 | h2
      · exact ⟨v, reqs, hu, h1⟩
      · exact ih h2

/-- Claim C9: no run of the reconciler or of the import engine ever issues a
delete request; every issued write is a create (POST) or an update (PUT), so
existing remote entries are never removed. -/
theorem no_delete_requests (env : String) (existing : List RemoteVar)
    (var : LocalVar) (import_vars : List LocalVar) (update_all : Bool) :
    (∀ reqs, update_vars env existing var = .ok reqs →
      ∀ r ∈ reqs, r.isDelete = false ∧ (r.isPut = true ∨ r.isPost = true)) ∧
    ∀ r ∈ (import_variables env existing import_vars update_all).1,
      r.isDelete = false ∧ (r.isPut = true ∨ r.isPost = true) := by
  refine ⟨fun reqs h => update_vars_ok_shape env existing var reqs h, ?_⟩
  intro r hr
  obtain ⟨v, reqs, hu, hmem⟩ := run_reconciler_mem_requests env existing
    (reconciler_calls import_vars update_all) r hr
  exact update_vars_ok_shape env existing v reqs hu r hmem

/-- Witness for C9 at a concrete one-entry import against an empty
snapshot. -/
theorem no_delete_requests_witness :
    (Request.post
        ⟨"K", "1", false, ⟨"deployment_environment", "E"⟩⟩).isDelete = false ∧
    ((Request.post
        ⟨"K", "1", false, ⟨"deployment_environment", "E"⟩⟩).isPut = true ∨
     (Request.post
        ⟨"K", "1", false, ⟨"deployment_environment", "E"⟩⟩).isPost = true) :=
  (no_delete_requests "E" [] ⟨"K", "1", some false⟩
      [⟨"K", "1", some false⟩] false).2 _ (by decide)

/-- Claim C10: the import engine matches against the snapshot fetched before
the loop, which its own writes never extend: importing two local entries
with the same key, absent from the snapshot, issues two POST requests and no
PUT — the second entry does not update the entry just created by the
first. -/
theorem import_snapshot_two_creates (env k v1 v2 : String)
    (existing : List RemoteVar) (update_all : Bool)
    (h : ∀ w ∈ existing, w.key ≠ k) :
    import_variables env existing
        [⟨k, v1, some false⟩, ⟨k, v2, some false⟩] update_all =
      ([Request.post ⟨k, v1, false, ⟨"deployment_environment", env⟩⟩,
        Request.post ⟨k, v2, false, ⟨"deployment_environment", env⟩⟩], none) ∧
    (import_variables env existing
        [⟨k, v1, some false⟩, ⟨k, v2, some false⟩] update_all).1.countP
      Request.isPut = 0 := by
  have hf : existing.find? (fun v => v.key == k) = none :=
    List.find?_eq_none.mpr (fun x hx => by simp [h x hx])
  have hcalls :
      reconciler_calls [⟨k, v1, some false⟩, ⟨k, v2, some false⟩] update_all =
        [(⟨k, v1, some false⟩ : LocalVar), ⟨k, v2, some false⟩] := by
    cases update_all <;> rfl
  have hu1 : update_vars env existing ⟨k, v1, some false⟩ =
      .ok [Request.post ⟨k, v1, false, ⟨"deployment_environment", env⟩⟩] := by
    simp [update_vars, hf]
  have hu2 : update_vars env existing ⟨k, v2, some false⟩ =
      .ok [Request.post ⟨k, v2, false, ⟨"deployment_environment", env⟩⟩] := by
    simp [update_vars, hf]
  have htrace : import_variables env existing
      [⟨k, v1, some false⟩, ⟨k, v2, some false⟩] update_all =
      ([Request.post ⟨k, v1, false, ⟨"deployment_environment", env⟩⟩,
        Request.post ⟨k, v2, false, ⟨"deployment_environment", env⟩⟩], none) := by
    rw [import_variables, hcalls]
    simp [run_reconciler, hu1, hu2]
  refine ⟨htrace, ?_⟩
  rw [htrace]
  simp [List.countP_cons, Request.isPut]

/-- Witness for C10 at a concrete snapshot and key. -/
theorem import_snapshot_two_creates_witness :
    import_variables "E" [RemoteVar.mk "A" "x" false "UA"]
        [⟨"K", "1", some false⟩, ⟨"K", "2", some false⟩] false =
      ([Request.post ⟨"K", "1", false, ⟨"deployment_environment", "E"⟩⟩,
        Request.post ⟨"K", "2", false, ⟨"deployment_environment", "E"⟩⟩], none) :=
  (import_snapshot_two_creates "E" "K" "1" "2" [⟨"A", "x", false, "UA"⟩] false
    (by decide)).1

/-- Looping over pages that all carry entries and a next link, closed by a
final page with entries and no next link, accumulates every entry of every
page in arrival order and makes one GET per page. -/
theorem get_variables_loop_full (ps : List Page) (last : Page)
    (h : ∀ p ∈ ps, p.values ≠ [] ∧ p.next.isSome)
    (h1 : last.values ≠ []) (h2 : last.next = none)
    (acc : List RemoteVar) (g : Nat) :
    get_variables_loop acc g (ps ++ [last]) =
      (acc ++ ((ps ++ [last]).map Page.values).flatten, g + ps.length + 1) := by
  induction ps generalizing acc g with
  | nil =>
    have hemp : last.values.isEmpty = false := by
      simpa [List.isEmpty_iff] using h1
    simp [get_variables_loop, hemp, h2]
  | cons p rest ih =>
    obtain ⟨hv, hn⟩ := h p (List.mem_cons_self p rest)
    obtain ⟨l, hl⟩ := Option.isSome_iff_exists.mp hn
    have hemp : p.values.isEmpty = false := by simpa [List.isEmpty_iff] using hv
    have hrest : ∀ q ∈ rest, q.values ≠ [] ∧ q.next.isSome :=
      fun q hq => h q (List.mem_cons_of_mem p hq)
    calc get_variables_loop acc g ((p :: rest) ++ [last])
        = get_variables_loop (acc ++ p.values) (g + 1) (rest ++ [last]) := by
          simp [get_variables_loop, hemp, hl]
      _ = (acc ++ p.values ++ ((rest ++ [last]).map Page.values).flatten,
            g + 1 + rest.length + 1) := ih hrest (acc ++ p.values) (g + 1)
      _ = (acc ++ (((p :: rest) ++ [last]).map Page.values).flatten,
            g + (p :: rest).length + 1) := by
          rw [Prod.mk.injEq]
          refine ⟨by simp, by simp; omega⟩

/-- A page with an empty values list, after pages that all carry entries and
a next link, makes the loop return the accumulated entries immediately,
whatever the next link of that page and whatever follows it. -/
theorem get_variables_loop_empty_page (pre : List Page) (e : Page)
    (rest : List Page) (h : ∀ p ∈ pre, p.values ≠ [] ∧ p.next.isSome)
    (he : e.values = []) (acc : List RemoteVar) (g : Nat) :
    get_variables_loop acc g (pre ++ e :: rest) =
      (acc ++ (pre.map Page.values).flatten, g + pre.length + 1) := by
  induction pre generalizing acc g with
  | nil =>
    have hemp : e.values.isEmpty = true := by simp [he]
    simp [get_variables_loop, hemp]
  | cons p ps ih =>
    obtain ⟨hv, hn⟩ := h p (List.mem_cons_self p ps)
    obtain ⟨l, hl⟩ := Option.isSome_iff_exists.mp hn
    have hemp : p.values.isEmpty = false := by simpa [List.isEmpty_iff] using hv
    have hps : ∀ q ∈ ps, q.values ≠ [] ∧ q.next.isSome :=
      fun q hq => h q (List.mem_cons_of_mem p hq)
    calc get_variables_loop acc g ((p :: ps) ++ e :: rest)
        = get_variables_loop (acc ++ p.values) (g + 1) (ps ++ e :: rest) := by
          simp [get_variables_loop, hemp, hl]
      _ = (acc ++ p.values ++ (ps.map Page.values).flatten,
            g + 1 + ps.length + 1) := ih hps (acc ++ p.values) (g + 1)
      _ = (acc ++ ((p :: ps).map Page.values).flatten,
            g + (p :: ps).length + 1) := by
          rw [Prod.mk.injEq]
          refine ⟨by simp, by simp; omega⟩

/-- Claim C2: the fetcher follows the next link until absent, returning the
concatenation of the page entries in arrival order with one GET per page;
in the three-page scenario (2 entries with a next link, 2 entries without
one, then any third page) it returns the four entries of the first two
pages with exactly 2 GETs, never reaching the third page; and a page with
an empty values list makes it return the entries accumulated so far
immediately, regardless of the next link of that page. -/
theorem get_variables_pages_spec :
    (∀ (ps : List Page) (last : Page),
      (∀ p ∈ ps, p.values ≠ [] ∧ p.next.isSome) →
      last.values ≠ [] → last.next = none →
      get_variables (ps ++ [last]) =
        (((ps ++ [last]).map Page.values).flatten, ps.length + 1)) ∧
    (∀ (v1 v2 v3 v4 : RemoteVar) (link : String) (third : Page),
      get_variables [⟨[v1, v2], some link⟩, ⟨[v3, v4], none⟩, third] =
        ([v1, v2, v3, v4], 2)) ∧
    (∀ (pre : List Page) (e : Page) (rest : List Page),
      (∀ p ∈ pre, p.values ≠ [] ∧ p.next.isSome) →
      e.values = [] →
      get_variables (pre ++ e :: rest) =
        ((pre.map Page.values).flatten, pre.length + 1)) := by
  refine ⟨?_, ?_, ?_⟩
  · intro ps last h h1 h2
    simpa [get_variables] using get_variables_loop_full ps last h h1 h2 [] 0
  · intro v1 v2 v3 v4 link third
    rfl
  · intro pre e rest h he
    simpa [get_variables] using
      get_variables_loop_empty_page pre e rest h he [] 0

/-- Witness for C2: the general pagination statement applied to a concrete
two-page remote. -/
theorem get_variables_pages_spec_witness :
    get_variables [Page.mk [RemoteVar.mk "a" "1" false "ua"] (some "u2"),
        Page.mk [RemoteVar.mk "b" "2" false "ub"] none] =
      ((([Page.mk [RemoteVar.mk "a" "1" false "ua"] (some "u2"),
          Page.mk [RemoteVar.mk "b" "2" false "ub"] none]).map
          Page.values).flatten,
        [Page.mk [RemoteVar.mk "a" "1" false "ua"] (some "u2")].length + 1) :=
  get_variables_pages_spec.1 [⟨[⟨"a", "1", false, "ua"⟩], some "u2"⟩]
    ⟨[⟨"b", "2", false, "ub"⟩], none⟩ (by decide) (by decide) rfl

end BitbucketEnvMgr
